import Mathlib

/-!
Shallow embedding of the module/config core of the buf repository
(`internal/buf/bufmodule/module.go` and the `bufconfig` package file).

Pure Go functions become Lean functions; fallible Go functions return
`Except`.  The storage bucket abstraction (an external collaborator in
the spec) is modelled as a finite list of path/content entries, where an
entry's content may itself be a read error so that non-not-found I/O
failures are representable.  Functions of this repository that are only
declared (not defined) in the provided sources are modelled from the
spec and carry a doc comment saying so.
-/

namespace Buf

/-! ### Storage model (external collaborator: `internal/pkg/storage`) -/

/-- A storage-level error: buckets distinguish not-found from other I/O
errors so that callers can apply fallback logic. -/
inductive StorageError where
  | notExist (path : String)
  | ioError (msg : String)
deriving DecidableEq, Repr

/-- The content a bucket holds at a path: either readable bytes or an
injected read failure (modelling `Get`/`ReadAll` errors other than
not-found). -/
inductive FileContent where
  | bytes (data : String)
  | readError (msg : String)
deriving DecidableEq, Repr

/-- One object in a read bucket: logical path, external (human-facing)
path, and content. -/
structure BucketEntry where
  path : String
  externalPath : String
  content : FileContent
deriving DecidableEq, Repr

/-- A read bucket: a finite key-value filesystem facade. -/
structure ReadBucket where
  entries : List BucketEntry
deriving DecidableEq, Repr

/-- A successfully fetched readable object. -/
structure ReadObject where
  path : String
  externalPath : String
  content : String
deriving DecidableEq, Repr

/-- `storage.ReadBucket.Get`: fetch by path; absent paths give a
distinguishable not-found error, present-but-unreadable entries give
their stored I/O error. -/
def ReadBucket.get (b : ReadBucket) (path : String) : Except StorageError ReadObject :=
  match b.entries.find? (fun e => e.path == path) with
  | none => .error (.notExist path)
  | some e =>
    match e.content with
    | .readError msg => .error (.ioError msg)
    | .bytes data => .ok { path := e.path, externalPath := e.externalPath, content := data }

/-- `storage.IsNotExist`. -/
def IsNotExist : StorageError → Bool
  | .notExist _ => true
  | .ioError _ => false

/-- Split a character list at every occurrence of the separator; always
returns at least one (possibly empty) chunk. -/
def splitOnChar (c : Char) : List Char → List (List Char)
  | [] => [[]]
  | x :: xs =>
    match splitOnChar c xs with
    | [] => if x = c then [[], []] else [[x]]
    | r :: rs => if x = c then [] :: r :: rs else (x :: r) :: rs

/-- The `/`-separated components of a path. -/
def pathComponents (path : String) : List String :=
  (splitOnChar '/' path.data).map List.asString

/-- Whether a path is absolute (starts with the separator). -/
def isAbsolutePath (path : String) : Bool :=
  match path.data with
  | [] => false
  | c :: _ => c = '/'

/-- The extension of a path: the suffix of its last component starting at
the last dot, `""` when the last component has no dot
(`filepath.Ext` semantics used by `storage.MatchPathExt`). -/
def pathExt (path : String) : String :=
  let base := (pathComponents path).getLastD ""
  let parts := splitOnChar '.' base.data
  if parts.length ≤ 1 then "" else "." ++ (parts.getLastD []).asString

/-- `storage.MatchPathExt`: matcher selecting paths with the given
extension. -/
def MatchPathExt (ext : String) (path : String) : Bool :=
  pathExt path == ext

/-- `storage.MapReadBucket` with a path matcher: the filtered view whose
entries (hence `get` and walks) are restricted to matching paths. -/
def MapReadBucket (b : ReadBucket) (matcher : String → Bool) : ReadBucket :=
  ⟨b.entries.filter (fun e => matcher e.path)⟩

/-- `storage.Exists`: true when the path can be fetched, false on
not-found, and any other error propagates. -/
def storageExists (b : ReadBucket) (path : String) : Except StorageError Bool :=
  match b.get path with
  | .ok _ => .ok true
  | .error (.notExist _) => .ok false
  | .error e => .error e

/-! ### Module identity and pin model -/

/-- `ModuleIdentity`: triple of remote host, owner, repository. -/
structure ModuleIdentity where
  remote : String
  owner : String
  repository : String
deriving DecidableEq, Repr

/-- `ModuleReference`: an identity plus a human reference (branch, tag,
or alias). -/
structure ModuleReference where
  identity : ModuleIdentity
  reference : String
deriving DecidableEq, Repr

/-- `ModulePin`: an identity pinned to one exact commit. -/
structure ModulePin where
  identity : ModuleIdentity
  commit : String
deriving DecidableEq, Repr

/-- Domain errors of the bufmodule package. -/
inductive ModuleError where
  | invalidPath (path : String)
  | duplicatePath (path : String)
  | duplicateDependency (identity : ModuleIdentity)
  | malformedDependency
  | enumerationFailure (cause : ModuleError)
  | storage (e : StorageError)
deriving DecidableEq, Repr

/-- Code-point-wise strict lexicographic comparison of character lists
(the byte-wise order Go uses on strings). -/
def charListLtB : List Char → List Char → Bool
  | [], [] => false
  | [], _ :: _ => true
  | _ :: _, [] => false
  | x :: xs, y :: ys =>
    if x.toNat < y.toNat then true
    else if y.toNat < x.toNat then false
    else charListLtB xs ys

/-- Strict string comparison. -/
def stringLtB (a b : String) : Bool :=
  charListLtB a.data b.data

/-- Non-strict string comparison. -/
def stringLeB (a b : String) : Bool :=
  ! charListLtB b.data a.data

theorem charListLtB_irrefl (l : List Char) : charListLtB l l = false := by
  induction l with
  | nil => rfl
  | cons c cs ih =>
    simp only [charListLtB]
    rw [if_neg (lt_irrefl _), if_neg (lt_irrefl _)]
    exact ih

theorem charListLtB_trans : ∀ {a b c : List Char},
    charListLtB a b = true → charListLtB b c = true → charListLtB a c = true := by
  intro a
  induction a with
  | nil =>
    intro b c hab hbc
    cases b with
    | nil => simp [charListLtB] at hab
    | cons y ys =>
      cases c with
      | nil => simp [charListLtB] at hbc
      | cons z zs => rfl
  | cons x xs ih =>
    intro b c hab hbc
    cases b with
    | nil => simp [charListLtB] at hab
    | cons y ys =>
      cases c with
      | nil => simp [charListLtB] at hbc
      | cons z zs =>
        simp only [charListLtB] at hab hbc ⊢
        by_cases h1 : x.toNat < y.toNat
        · by_cases h2 : y.toNat < z.toNat
          · rw [if_pos (show x.toNat < z.toNat by omega)]
          · rw [if_neg h2] at hbc
            by_cases h3 : z.toNat < y.toNat
            · rw [if_pos h3] at hbc
              exact absurd hbc (by simp)
            · rw [if_pos (show x.toNat < z.toNat by omega)]
        · rw [if_neg h1] at hab
          by_cases h1' : y.toNat < x.toNat
          · rw [if_pos h1'] at hab
            exact absurd hab (by simp)
          · rw [if_neg h1'] at hab
            by_cases h2 : y.toNat < z.toNat
            · rw [if_pos (show x.toNat < z.toNat by omega)]
            · rw [if_neg h2] at hbc
              by_cases h3 : z.toNat < y.toNat
              · rw [if_pos h3] at hbc
                exact absurd hbc (by simp)
              · rw [if_neg h3] at hbc
                rw [if_neg (show ¬ x.toNat < z.toNat by omega),
                  if_neg (show ¬ z.toNat < x.toNat by omega)]
                exact ih hab hbc

theorem char_eq_of_toNat_eq {x y : Char} (h : x.toNat = y.toNat) : x = y :=
  Char.eq_of_val_eq (UInt32.ext h)

theorem charListLtB_trichotomy : ∀ (a b : List Char),
    charListLtB a b = true ∨ a = b ∨ charListLtB b a = true
  | [], [] => Or.inr (Or.inl rfl)
  | [], _ :: _ => Or.inl rfl
  | _ :: _, [] => Or.inr (Or.inr rfl)
  | x :: xs, y :: ys => by
    rcases Nat.lt_trichotomy x.toNat y.toNat with h | h | h
    · left
      simp only [charListLtB]
      rw [if_pos h]
    · have hxy : x = y := char_eq_of_toNat_eq h
      rcases charListLtB_trichotomy xs ys with h' | h' | h'
      · left
        simp only [charListLtB]
        rw [if_neg (by omega), if_neg (by omega)]
        exact h'
      · right; left
        rw [hxy, h']
      · right; right
        simp only [charListLtB]
        rw [if_neg (by omega), if_neg (by omega)]
        exact h'
    · right; right
      simp only [charListLtB]
      rw [if_pos h]

theorem string_eq_of_data_eq {a b : String} (h : a.data = b.data) : a = b :=
  congrArg String.mk h

theorem stringLtB_trichotomy (a b : String) :
    stringLtB a b = true ∨ a = b ∨ stringLtB b a = true := by
  rcases charListLtB_trichotomy a.data b.data with h | h | h
  · exact Or.inl h
  · exact Or.inr (Or.inl (string_eq_of_data_eq h))
  · exact Or.inr (Or.inr h)

theorem stringLeB_total (a b : String) : stringLeB a b = true ∨ stringLeB b a = true := by
  unfold stringLeB
  by_cases h1 : charListLtB b.data a.data = true
  · right
    by_cases h2 : charListLtB a.data b.data = true
    · have hcontra := charListLtB_trans h1 h2
      rw [charListLtB_irrefl] at hcontra
      exact absurd hcontra (by simp)
    · simp [Bool.not_eq_true] at h2
      simp [h2]
  · left
    simp [Bool.not_eq_true] at h1
    simp [h1]

theorem stringLtB_strict_trans {a b c : String}
    (h1 : stringLtB a b = true) (h2 : stringLtB b c = true) : stringLtB a c = true :=
  charListLtB_trans h1 h2

theorem stringLeB_trans {a b c : String}
    (h1 : stringLeB a b = true) (h2 : stringLeB b c = true) : stringLeB a c = true := by
  unfold stringLeB at h1 h2 ⊢
  cases hba : charListLtB b.data a.data with
  | true =>
    rw [hba] at h1
    exact absurd h1 (by simp)
  | false =>
    cases hcb : charListLtB c.data b.data with
    | true =>
      rw [hcb] at h2
      exact absurd h2 (by simp)
    | false =>
      cases hca : charListLtB c.data a.data with
      | false => rfl
      | true =>
        rcases charListLtB_trichotomy b.data c.data with h | h | h
        · have hcontra := charListLtB_trans h hca
          rw [hba] at hcontra
          exact absurd hcontra (by simp)
        · rw [← h] at hca
          rw [hba] at hca
          exact absurd hca (by simp)
        · rw [hcb] at h
          exact absurd h (by simp)

/-- The total order on identities used to sort pins: by remote, then
owner, then repository, lexicographically. -/
def identityLe (a b : ModuleIdentity) : Prop :=
  stringLtB a.remote b.remote = true ∨
    (a.remote = b.remote ∧
      (stringLtB a.owner b.owner = true ∨
        (a.owner = b.owner ∧ stringLeB a.repository b.repository = true)))

instance : DecidableRel identityLe := fun a b => by
  unfold identityLe; infer_instance

/-- Pin comparison: pins are ordered by their identity. -/
def pinLe (p q : ModulePin) : Prop :=
  identityLe p.identity q.identity

instance : DecidableRel pinLe := fun p q => by
  unfold pinLe; infer_instance

theorem stringLtB_le {a b : String} (h : stringLtB a b = true) : stringLeB a b = true := by
  unfold stringLeB
  by_cases h' : charListLtB b.data a.data = true
  · have hcontra := charListLtB_trans h h'
    rw [charListLtB_irrefl] at hcontra
    exact absurd hcontra (by simp)
  · simp [Bool.not_eq_true] at h'
    simp [h']

theorem identityLe_total (a b : ModuleIdentity) : identityLe a b ∨ identityLe b a := by
  unfold identityLe
  rcases stringLtB_trichotomy a.remote b.remote with h | h | h
  · exact Or.inl (Or.inl h)
  · rcases stringLtB_trichotomy a.owner b.owner with h2 | h2 | h2
    · exact Or.inl (Or.inr ⟨h, Or.inl h2⟩)
    · rcases stringLeB_total a.repository b.repository with h3 | h3
      · exact Or.inl (Or.inr ⟨h, Or.inr ⟨h2, h3⟩⟩)
      · exact Or.inr (Or.inr ⟨h.symm, Or.inr ⟨h2.symm, h3⟩⟩)
    · exact Or.inr (Or.inr ⟨h.symm, Or.inl h2⟩)
  · exact Or.inr (Or.inl h)

theorem identityLe_trans {a b c : ModuleIdentity}
    (h1 : identityLe a b) (h2 : identityLe b c) : identityLe a c := by
  unfold identityLe at h1 h2 ⊢
  rcases h1 with h1 | ⟨e1, g1⟩
  · rcases h2 with h2 | ⟨e2, _⟩
    · exact Or.inl (stringLtB_strict_trans h1 h2)
    · exact Or.inl (by rw [← e2]; exact h1)
  · rcases h2 with h2 | ⟨e2, g2⟩
    · exact Or.inl (by rw [e1]; exact h2)
    · refine Or.inr ⟨e1.trans e2, ?_⟩
      rcases g1 with g1 | ⟨f1, k1⟩
      · rcases g2 with g2 | ⟨f2, _⟩
        · exact Or.inl (stringLtB_strict_trans g1 g2)
        · exact Or.inl (by rw [← f2]; exact g1)
      · rcases g2 with g2 | ⟨f2, k2⟩
        · exact Or.inl (by rw [f1]; exact g2)
        · exact Or.inr ⟨f1.trans f2, stringLeB_trans k1 k2⟩

instance : IsTotal ModulePin pinLe :=
  ⟨fun p q => identityLe_total p.identity q.identity⟩

instance : IsTrans ModulePin pinLe :=
  ⟨fun _ _ _ h1 h2 => identityLe_trans h1 h2⟩

/-- Modelled from the spec: `SortModulePins` is declared outside the
provided sources; per §4.2 it sorts a pin list stably by identity
(remote, then owner, then repository). -/
def SortModulePins (pins : List ModulePin) : List ModulePin :=
  List.insertionSort pinLe pins

/-- Scan for the first identity that occurs in two pins. -/
def findDuplicateIdentity : List ModulePin → Option ModuleIdentity
  | [] => none
  | p :: rest =>
    if rest.any (fun q => q.identity == p.identity) then some p.identity
    else findDuplicateIdentity rest

/-- Modelled from the spec: `ValidateModulePinsUniqueByIdentity` is
declared outside the provided sources; per §4.2 it fails with
`DuplicateDependency` naming the repeated identity when two pins share
an identity. -/
def ValidateModulePinsUniqueByIdentity (pins : List ModulePin) : Except ModuleError Unit :=
  match findDuplicateIdentity pins with
  | some identity => .error (.duplicateDependency identity)
  | none => .ok ()

/-! ### Module file paths and file infos -/

/-- Modelled from the spec: `DocumentationFilePath` is declared outside
the provided sources; per §6 it is the fixed reserved relative path for
free-form module documentation, never counted as a source file. -/
def DocumentationFilePath : String := "buf.md"

/-- Modelled from the spec: `ValidateModuleFilePath` is declared outside
the provided sources; per §4.1 a module file path must be non-empty,
relative (not absolute), free of parent-traversal segments, and carry
the recognized source extension `.proto`, failing with `InvalidPath`
otherwise. -/
def ValidateModuleFilePath (path : String) : Except ModuleError Unit :=
  if path = "" then .error (.invalidPath path)
  else if isAbsolutePath path then .error (.invalidPath path)
  else if (pathComponents path).contains ".." then .error (.invalidPath path)
  else if pathExt path = ".proto" then .ok ()
  else .error (.invalidPath path)

/-- `FileInfo`: per-file descriptor produced by enumeration. -/
structure FileInfo where
  path : String
  externalPath : String
  isImport : Bool
  moduleIdentity : Option ModuleIdentity
  commit : String
deriving DecidableEq, Repr

/-- Modelled from the spec: `NewFileInfo` is declared outside the
provided sources; per §3 the logical path is always validated, and the
external path defaults to the logical path when unset. -/
def NewFileInfo (path externalPath : String) (imp : Bool)
    (moduleIdentity : Option ModuleIdentity) (commit : String) :
    Except ModuleError FileInfo :=
  match ValidateModuleFilePath path with
  | .error e => .error e
  | .ok _ =>
    .ok { path
          externalPath := if externalPath = "" then path else externalPath
          isImport := imp
          moduleIdentity
          commit }

/-- File infos are sorted by logical path. -/
def fileInfoLe (a b : FileInfo) : Prop :=
  stringLeB a.path b.path = true

instance : DecidableRel fileInfoLe := fun a b => by
  unfold fileInfoLe; infer_instance

instance : IsTotal FileInfo fileInfoLe :=
  ⟨fun a b => stringLeB_total a.path b.path⟩

instance : IsTrans FileInfo fileInfoLe :=
  ⟨fun _ _ _ h1 h2 => stringLeB_trans h1 h2⟩

/-- Modelled from the spec: `sortFileInfos` is declared outside the
provided sources; per §4.3 enumeration sorts its result by path for
deterministic output. -/
def sortFileInfos (fileInfos : List FileInfo) : List FileInfo :=
  List.insertionSort fileInfoLe fileInfos

/-! ### The module aggregate and its three constructors
(`internal/buf/bufmodule/module.go`) -/

/-- The `module` struct. -/
structure Module where
  sourceReadBucket : ReadBucket
  dependencyModulePins : List ModulePin
  moduleIdentity : Option ModuleIdentity
  commit : String
  documentation : String
deriving DecidableEq, Repr

/-- A `ModuleOption`: the construction modifiers set identity and commit
as post-construction overrides. -/
inductive ModuleOption where
  | withModuleIdentityAndCommit (moduleIdentity : ModuleIdentity) (commit : String)
deriving DecidableEq, Repr

/-- Apply one construction modifier. -/
def applyModuleOption (m : Module) : ModuleOption → Module
  | .withModuleIdentityAndCommit mi c => { m with moduleIdentity := some mi, commit := c }

/-- The documentation-read step of the core builder: the lack of the
documentation file is allowed, any other read failure is fatal
(module.go lines 97-109). -/
def readDocumentation (sourceReadBucket : ReadBucket) : Except ModuleError String :=
  match sourceReadBucket.get DocumentationFilePath with
  | .ok obj => .ok obj.content
  | .error e => if IsNotExist e then .ok "" else .error (.storage e)

/-- `newModuleForBucketWithDependencyModulePins`: the validated core
builder all three constructors funnel into (module.go lines 88-121). -/
def newModuleForBucketWithDependencyModulePins
    (sourceReadBucket : ReadBucket) (dependencyModulePins : List ModulePin)
    (options : List ModuleOption) : Except ModuleError Module :=
  match ValidateModulePinsUniqueByIdentity dependencyModulePins with
  | .error e => .error e
  | .ok _ =>
    match readDocumentation sourceReadBucket with
    | .error e => .error e
    | .ok documentationContents =>
      let m : Module :=
        { sourceReadBucket := MapReadBucket sourceReadBucket (MatchPathExt ".proto")
          dependencyModulePins := SortModulePins dependencyModulePins
          moduleIdentity := none
          commit := ""
          documentation := documentationContents }
      .ok (options.foldl applyModuleOption m)

/-- `newModuleForBucket` (module.go lines 71-86); the dependency lock
reader `getDependencyModulePinsForBucket` is an external collaborator,
so its outcome on the bucket is taken as a parameter. -/
def newModuleForBucket
    (dependencyLockResult : Except ModuleError (List ModulePin))
    (sourceReadBucket : ReadBucket) (options : List ModuleOption) :
    Except ModuleError Module :=
  match dependencyLockResult with
  | .error e => .error e
  | .ok dependencyModulePins =>
    newModuleForBucketWithDependencyModulePins sourceReadBucket dependencyModulePins options

/-! ### The wire (proto) constructor -/

/-- One embedded file of a decoded wire module. -/
structure ProtoModuleFile where
  path : String
  content : String
deriving DecidableEq, Repr

/-- One serialized dependency descriptor of a decoded wire module. -/
structure ProtoModulePin where
  remote : String
  owner : String
  repository : String
  commit : String
deriving DecidableEq, Repr

/-- A decoded wire module payload. -/
structure ProtoModule where
  files : List ProtoModuleFile
  dependencies : List ProtoModulePin
  documentation : String
deriving DecidableEq, Repr

/-- Validate the file list of a wire payload: every path must be a valid
module file path and paths must be unique. -/
def validateProtoModuleFiles : List ProtoModuleFile → Except ModuleError Unit
  | [] => .ok ()
  | f :: rest =>
    match ValidateModuleFilePath f.path with
    | .error e => .error e
    | .ok _ =>
      if rest.any (fun g => g.path == f.path) then .error (.duplicatePath f.path)
      else validateProtoModuleFiles rest

/-- Modelled from the spec: `ValidateProtoModule` is declared outside
the provided sources; per §4.3 paths of a decoded payload are
re-validated defensively and must be unique. -/
def ValidateProtoModule (protoModule : ProtoModule) : Except ModuleError Unit :=
  validateProtoModuleFiles protoModule.files

/-- Modelled from the spec: decoding one wire dependency descriptor
fails with `MalformedDependency` on missing required fields (identity
components or commit) per §4.2. -/
def newModulePinForProto (d : ProtoModulePin) : Except ModuleError ModulePin :=
  if d.remote = "" ∨ d.owner = "" ∨ d.repository = "" ∨ d.commit = "" then
    .error .malformedDependency
  else
    .ok { identity := { remote := d.remote, owner := d.owner, repository := d.repository }
          commit := d.commit }

/-- Modelled from the spec: `NewModulePinsForProtos` decodes each wire
dependency descriptor in order. -/
def NewModulePinsForProtos : List ProtoModulePin → Except ModuleError (List ModulePin)
  | [] => .ok []
  | d :: rest =>
    match newModulePinForProto d with
    | .error e => .error e
    | .ok pin =>
      match NewModulePinsForProtos rest with
      | .error e => .error e
      | .ok pins => .ok (pin :: pins)

/-- The fresh in-memory bucket `newModuleForProto` builds: each embedded
file's path/content pair, plus the documentation blob under the reserved
path when non-empty (module.go lines 43-58). -/
def protoBucket (protoModule : ProtoModule) : ReadBucket :=
  ⟨(protoModule.files.map fun f => ⟨f.path, f.path, .bytes f.content⟩) ++
    (if protoModule.documentation = "" then []
     else [⟨DocumentationFilePath, DocumentationFilePath, .bytes protoModule.documentation⟩])⟩

/-- `newModuleForProto` (module.go lines 35-69). -/
def newModuleForProto (protoModule : ProtoModule) (options : List ModuleOption) :
    Except ModuleError Module :=
  match ValidateProtoModule protoModule with
  | .error e => .error e
  | .ok _ =>
    match NewModulePinsForProtos protoModule.dependencies with
    | .error e => .error e
    | .ok dependencyModulePins =>
      newModuleForBucketWithDependencyModulePins
        (protoBucket protoModule) dependencyModulePins options

/-! ### Public operations on a constructed module -/

/-- The walk callback loop of `SourceFileInfos` (module.go lines
129-146): validate every encountered path, build a `FileInfo` per file;
the first callback error aborts the walk. -/
def walkFileInfos (moduleIdentity : Option ModuleIdentity) (commit : String) :
    List BucketEntry → Except ModuleError (List FileInfo)
  | [] => .ok []
  | e :: rest =>
    match ValidateModuleFilePath e.path with
    | .error err => .error err
    | .ok _ =>
      match NewFileInfo e.path e.externalPath false moduleIdentity commit with
      | .error err => .error err
      | .ok fileInfo =>
        match walkFileInfos moduleIdentity commit rest with
        | .error err => .error err
        | .ok fileInfos => .ok (fileInfo :: fileInfos)

/-- `SourceFileInfos` (module.go lines 127-151): walk the filtered
bucket, wrap any walk failure as an enumeration failure, otherwise sort
the collected infos by path. -/
def Module.SourceFileInfos (m : Module) : Except ModuleError (List FileInfo) :=
  match walkFileInfos m.moduleIdentity m.commit m.sourceReadBucket.entries with
  | .error walkErr => .error (.enumerationFailure walkErr)
  | .ok fileInfos => .ok (sortFileInfos fileInfos)

/-- `TargetFileInfos` (module.go lines 123-125): delegates to
`SourceFileInfos`. -/
def Module.TargetFileInfos (m : Module) : Except ModuleError (List FileInfo) :=
  m.SourceFileInfos

/-- A fetched module file: its info plus readable content. -/
structure ModuleFile where
  fileInfo : FileInfo
  content : String
deriving DecidableEq, Repr

/-- `GetModuleFile` (module.go lines 153-173). -/
def Module.GetModuleFile (m : Module) (path : String) : Except ModuleError ModuleFile :=
  match ValidateModuleFilePath path with
  | .error e => .error e
  | .ok _ =>
    match m.sourceReadBucket.get path with
    | .error e => .error (.storage e)
    | .ok obj =>
      match NewFileInfo obj.path obj.externalPath false m.moduleIdentity m.commit with
      | .error e => .error e
      | .ok fileInfo => .ok { fileInfo := fileInfo, content := obj.content }

/-- `DependencyModulePins` (module.go lines 175-178). -/
def Module.DependencyModulePins (m : Module) : List ModulePin :=
  m.dependencyModulePins

/-- `Documentation` (module.go lines 180-182). -/
def Module.Documentation (m : Module) : String :=
  m.documentation

/-! ### The bufconfig package -/

/-- `ExternalConfigFilePath`: the canonical configuration file path. -/
def ExternalConfigFilePath : String := "buf.mod"

/-- `ExternalConfigV1Beta1FilePath`: the legacy (v1beta1-era) file path. -/
def ExternalConfigV1Beta1FilePath : String := "buf.yaml"

/-- `V1Version`. -/
def V1Version : String := "v1"

/-- `V1Beta1Version`. -/
def V1Beta1Version : String := "v1beta1"

/-- `AllVersions`: all versions in order. -/
def AllVersions : List String := [V1Beta1Version, V1Version]

/-- Errors of the bufconfig package. -/
inductive ConfigError where
  | unsupportedVersion (version : String)
  | configParseError (msg : String)
  | optionConflict
  | storage (e : StorageError)
deriving DecidableEq, Repr

/-- Opaque build sub-config: the dependency references plus an opaque
payload handed through uninterpreted. -/
structure BuildConfig where
  dependencyModuleReferences : List ModuleReference
  payload : String
deriving DecidableEq, Repr

/-- Opaque breaking-change sub-config. -/
structure BreakingConfig where
  payload : String
deriving DecidableEq, Repr

/-- Opaque lint sub-config. -/
structure LintConfig where
  payload : String
deriving DecidableEq, Repr

/-- The internal `Config` value object. -/
structure Config where
  version : String
  moduleIdentity : Option ModuleIdentity
  build : BuildConfig
  breaking : BreakingConfig
  lint : LintConfig
deriving DecidableEq, Repr

/-- `ExternalConfigV1Beta1`: the on-disk schema at v1beta1, with the
nested build/breaking/lint blocks kept as opaque payloads. -/
structure ExternalConfigV1Beta1 where
  version : String
  name : String
  deps : List String
  build : String
  breaking : String
  lint : String
deriving DecidableEq, Repr

/-- `ExternalConfigV1`: the on-disk schema at v1. -/
structure ExternalConfigV1 where
  version : String
  name : String
  deps : List String
  build : String
  breaking : String
  lint : String
deriving DecidableEq, Repr

/-- Modelled from the spec: parsing a module name string into a
`ModuleIdentity`; per §3 the canonical string form is the
slash-join of remote, owner and repository. -/
def parseModuleIdentity (s : String) : Except String ModuleIdentity :=
  match pathComponents s with
  | [remote, owner, repository] =>
    if remote = "" ∨ owner = "" ∨ repository = "" then .error s
    else .ok { remote, owner, repository }
  | _ => .error s

/-- Modelled from the spec: parsing a dependency string into a
`ModuleReference` (identity plus optional `:`-separated reference). -/
def parseModuleReference (s : String) : Except String ModuleReference :=
  match (splitOnChar ':' s.data).map List.asString with
  | [idPart] =>
    match parseModuleIdentity idPart with
    | .error e => .error e
    | .ok identity => .ok { identity, reference := "" }
  | [idPart, ref] =>
    match parseModuleIdentity idPart with
    | .error e => .error e
    | .ok identity => .ok { identity, reference := ref }
  | _ => .error s

/-- Parse each dependency string in order. -/
def parseModuleReferences : List String → Except String (List ModuleReference)
  | [] => .ok []
  | s :: rest =>
    match parseModuleReference s with
    | .error e => .error e
    | .ok ref =>
      match parseModuleReferences rest with
      | .error e => .error e
      | .ok refs => .ok (ref :: refs)

/-- The fixed default `Config`: default version, no identity, default
sub-configs. -/
def defaultConfig : Config :=
  { version := V1Beta1Version
    moduleIdentity := none
    build := { dependencyModuleReferences := [], payload := "" }
    breaking := { payload := "" }
    lint := { payload := "" } }

/-- Modelled from the spec: mapping the v1beta1 external schema into the
internal `Config` (§4.4 step 4): parse the module name (if present) into
an identity, parse each dependency string into a reference, and pass the
nested blocks through; any parse failure is a `ConfigParseError`. -/
def newConfigV1Beta1 (e : ExternalConfigV1Beta1) : Except ConfigError Config :=
  match (if e.name = "" then .ok none else
          match parseModuleIdentity e.name with
          | .error msg => .error msg
          | .ok identity => .ok (some identity) : Except String (Option ModuleIdentity)) with
  | .error msg => .error (.configParseError msg)
  | .ok moduleIdentity =>
    match parseModuleReferences e.deps with
    | .error msg => .error (.configParseError msg)
    | .ok refs =>
      .ok { version := V1Beta1Version
            moduleIdentity
            build := { dependencyModuleReferences := refs, payload := e.build }
            breaking := { payload := e.breaking }
            lint := { payload := e.lint } }

/-- Modelled from the spec: mapping the v1 external schema into the
internal `Config`. -/
def newConfigV1 (e : ExternalConfigV1) : Except ConfigError Config :=
  match (if e.name = "" then .ok none else
          match parseModuleIdentity e.name with
          | .error msg => .error msg
          | .ok identity => .ok (some identity) : Except String (Option ModuleIdentity)) with
  | .error msg => .error (.configParseError msg)
  | .ok moduleIdentity =>
    match parseModuleReferences e.deps with
    | .error msg => .error (.configParseError msg)
    | .ok refs =>
      .ok { version := V1Version
            moduleIdentity
            build := { dependencyModuleReferences := refs, payload := e.build }
            breaking := { payload := e.breaking }
            lint := { payload := e.lint } }

/-- Outcome of an external full-decode attempt. -/
inductive DecodeResult (α : Type) where
  | ok (value : α)
  | failed (msg : String)
deriving DecidableEq, Repr

/-- Modelled from the spec: the provider's view of raw config data
after the external YAML/JSON decoder ran (decoding itself is an
external library call): zero-length raw input, undecodable input, or
decoded input carrying the sniffed version field together with the
version-specific full-decode outcomes. -/
inductive ConfigData where
  | empty
  | undecodable (msg : String)
  | decoded (version : String)
      (v1beta1 : DecodeResult ExternalConfigV1Beta1)
      (v1 : DecodeResult ExternalConfigV1)
deriving DecidableEq, Repr

/-- Modelled from the spec: `GetConfigForData` (§4.4): zero-length data
yields the fixed default `Config`, the version string dispatches by
exact string equality with unrecognized values failing as
`UnsupportedVersion` naming the offending string, and each recognized
version has its own full-decode path. -/
def GetConfigForData : ConfigData → Except ConfigError Config
  | .empty => .ok defaultConfig
  | .undecodable msg => .error (.configParseError msg)
  | .decoded version dv1beta1 dv1 =>
    if version = V1Beta1Version then
      match dv1beta1 with
      | .failed msg => .error (.configParseError msg)
      | .ok e => newConfigV1Beta1 e
    else if version = V1Version then
      match dv1 with
      | .failed msg => .error (.configParseError msg)
      | .ok e => newConfigV1 e
    else .error (.unsupportedVersion version)

/-- Modelled from the spec: `GetConfig` (§4.4): look up the canonical
config filename, falling back to the legacy filename when the canonical
one is absent; a non-existent canonical and legacy path yields the
default `Config`; the external decoder on the fetched bytes is a
parameter. -/
def GetConfig (decode : String → ConfigData) (readBucket : ReadBucket) :
    Except ConfigError Config :=
  match readBucket.get ExternalConfigFilePath with
  | .ok obj => GetConfigForData (decode obj.content)
  | .error e =>
    if IsNotExist e then
      match readBucket.get ExternalConfigV1Beta1FilePath with
      | .ok obj => GetConfigForData (decode obj.content)
      | .error e2 =>
        if IsNotExist e2 then .ok defaultConfig
        else .error (.storage e2)
    else .error (.storage e)

/-- `ConfigExists` (bufconfig lines 165-176): canonical first, then the
legacy fallback. -/
def ConfigExists (readBucket : ReadBucket) : Except StorageError Bool :=
  match storageExists readBucket ExternalConfigFilePath with
  | .error e => .error e
  | .ok true => .ok true
  | .ok false => storageExists readBucket ExternalConfigV1Beta1FilePath

/-! ### Config write workflow -/

/-- The collected `writeConfigOptions` (fields as set by the option
constructors in the bufconfig source). -/
structure WriteConfigOptions where
  moduleIdentity : Option ModuleIdentity
  dependencyModuleReferences : List ModuleReference
  documentationComments : Bool
  uncomment : Bool
deriving DecidableEq, Repr

/-- The zero value of `writeConfigOptions`. -/
def defaultWriteConfigOptions : WriteConfigOptions :=
  { moduleIdentity := none
    dependencyModuleReferences := []
    documentationComments := false
    uncomment := false }

/-- `WriteConfigOption`: a functional option mutating the collected
options. -/
def WriteConfigOption : Type :=
  WriteConfigOptions → WriteConfigOptions

/-- `WriteConfigWithModuleIdentity` (bufconfig lines 97-101). -/
def WriteConfigWithModuleIdentity (moduleIdentity : ModuleIdentity) : WriteConfigOption :=
  fun o => { o with moduleIdentity := some moduleIdentity }

/-- `WriteConfigWithDependencyModuleReferences` (bufconfig lines
109-113). -/
def WriteConfigWithDependencyModuleReferences
    (dependencyModuleReferences : List ModuleReference) : WriteConfigOption :=
  fun o => { o with dependencyModuleReferences := dependencyModuleReferences }

/-- `WriteConfigWithDocumentationComments` (bufconfig lines 116-120). -/
def WriteConfigWithDocumentationComments : WriteConfigOption :=
  fun o => { o with documentationComments := true }

/-- `WriteConfigWithUncomment` (bufconfig lines 126-130). -/
def WriteConfigWithUncomment : WriteConfigOption :=
  fun o => { o with uncomment := true }

/-- Fold the functional options over the zero options value. -/
def applyWriteConfigOptions (options : List WriteConfigOption) : WriteConfigOptions :=
  options.foldl (fun o f => f o) defaultWriteConfigOptions

/-- A write bucket: destination key-value store. -/
structure WriteBucket where
  entries : List (String × String)
deriving DecidableEq, Repr

/-- `storage.WriteBucket` put-by-path. -/
def WriteBucket.put (b : WriteBucket) (path content : String) : WriteBucket :=
  ⟨b.entries ++ [(path, content)]⟩

/-- Modelled from the spec: the rendered configuration file content for
the collected options (serialization details are opaque to this core). -/
def renderConfig (o : WriteConfigOptions) : String :=
  String.intercalate "\n"
    ([V1Beta1Version] ++
      (match o.moduleIdentity with
       | none => []
       | some mi => [mi.remote ++ "/" ++ mi.owner ++ "/" ++ mi.repository]) ++
      o.dependencyModuleReferences.map (fun r =>
        r.identity.remote ++ "/" ++ r.identity.owner ++ "/" ++ r.identity.repository))

/-- Modelled from the spec: `writeConfig` (§4.5): collect the options,
reject dependency references supplied without a module identity (and
uncomment without documentation comments) with `OptionConflict` before
any I/O, otherwise write exactly one file at the canonical path.  The
returned pair is the (possibly updated) destination bucket and the
optional error, so that no-write-on-error is an observable fact rather
than a consequence of the return type. -/
def writeConfig (writeBucket : WriteBucket) (options : List WriteConfigOption) :
    WriteBucket × Option ConfigError :=
  let o := applyWriteConfigOptions options
  if o.dependencyModuleReferences ≠ [] ∧ o.moduleIdentity = none then
    (writeBucket, some .optionConflict)
  else if o.uncomment ∧ ¬ o.documentationComments then
    (writeBucket, some .optionConflict)
  else
    (writeBucket.put ExternalConfigFilePath (renderConfig o), none)

/-- `WriteConfig` (bufconfig lines 77-88): delegates to `writeConfig`. -/
def WriteConfig (writeBucket : WriteBucket) (options : List WriteConfigOption) :
    WriteBucket × Option ConfigError :=
  writeConfig writeBucket options

/-! ### Helper lemmas -/

theorem foldl_applyModuleOption_pins (options : List ModuleOption) (m : Module) :
    (options.foldl applyModuleOption m).dependencyModulePins = m.dependencyModulePins := by
  induction options generalizing m with
  | nil => rfl
  | cons o rest ih =>
    cases o with
    | withModuleIdentityAndCommit mi c =>
      rw [List.foldl_cons]
      exact ih _

theorem foldl_applyModuleOption_documentation (options : List ModuleOption) (m : Module) :
    (options.foldl applyModuleOption m).documentation = m.documentation := by
  induction options generalizing m with
  | nil => rfl
  | cons o rest ih =>
    cases o with
    | withModuleIdentityAndCommit mi c =>
      rw [List.foldl_cons]
      exact ih _

theorem foldl_applyModuleOption_bucket (options : List ModuleOption) (m : Module) :
    (options.foldl applyModuleOption m).sourceReadBucket = m.sourceReadBucket := by
  induction options generalizing m with
  | nil => rfl
  | cons o rest ih =>
    cases o with
    | withModuleIdentityAndCommit mi c =>
      rw [List.foldl_cons]
      exact ih _

theorem core_ok_elim {b : ReadBucket} {pins : List ModulePin} {options : List ModuleOption}
    {m : Module} (h : newModuleForBucketWithDependencyModulePins b pins options = .ok m) :
    ValidateModulePinsUniqueByIdentity pins = .ok () ∧
    ∃ docs, readDocumentation b = .ok docs ∧
      m = options.foldl applyModuleOption
        { sourceReadBucket := MapReadBucket b (MatchPathExt ".proto")
          dependencyModulePins := SortModulePins pins
          moduleIdentity := none
          commit := ""
          documentation := docs } := by
  unfold newModuleForBucketWithDependencyModulePins at h
  rcases hv : ValidateModulePinsUniqueByIdentity pins with e | u
  · rw [hv] at h
    exact absurd h (by simp)
  · cases u
    rw [hv] at h
    rcases hd : readDocumentation b with e | docs
    · rw [hd] at h
      exact absurd h (by simp)
    · rw [hd] at h
      simp only [Except.ok.injEq] at h
      exact ⟨rfl, docs, rfl, h.symm⟩

theorem findDuplicateIdentity_eq_none_iff (pins : List ModulePin) :
    findDuplicateIdentity pins = none ↔
      pins.Pairwise (fun q r => q.identity ≠ r.identity) := by
  induction pins with
  | nil => simp [findDuplicateIdentity]
  | cons p rest ih =>
    by_cases hany : rest.any (fun q => q.identity == p.identity)
    · obtain ⟨q, hq, hqe⟩ := List.any_eq_true.mp hany
      have hqe' : q.identity = p.identity := by simpa using hqe
      simp only [findDuplicateIdentity, hany, if_true, List.pairwise_cons]
      constructor
      · intro hcontra
        exact absurd hcontra (by simp)
      · rintro ⟨hall, -⟩
        exact absurd hqe'.symm (hall q hq)
    · have hall : ∀ q ∈ rest, p.identity ≠ q.identity := by
        intro q hq
        intro hcontra
        exact hany (List.any_eq_true.mpr ⟨q, hq, by simp [hcontra]⟩)
      simp only [findDuplicateIdentity, hany, Bool.false_eq_true, if_false,
        List.pairwise_cons]
      rw [ih]
      constructor
      · intro hp
        exact ⟨hall, hp⟩
      · rintro ⟨-, hp⟩
        exact hp

theorem validateModulePins_ok_of_pairwise {pins : List ModulePin}
    (h : pins.Pairwise (fun q r => q.identity ≠ r.identity)) :
    ValidateModulePinsUniqueByIdentity pins = .ok () := by
  unfold ValidateModulePinsUniqueByIdentity
  rw [(findDuplicateIdentity_eq_none_iff pins).mpr h]

theorem validateModulePins_dup {pins : List ModulePin}
    (h : ¬ pins.Pairwise (fun q r => q.identity ≠ r.identity)) :
    ∃ identity, ValidateModulePinsUniqueByIdentity pins =
      .error (.duplicateDependency identity) := by
  unfold ValidateModulePinsUniqueByIdentity
  rcases hf : findDuplicateIdentity pins with _ | id
  · exact absurd ((findDuplicateIdentity_eq_none_iff pins).mp hf) h
  · exact ⟨id, rfl⟩

theorem sortModulePins_sorted (pins : List ModulePin) :
    List.Sorted pinLe (SortModulePins pins) :=
  List.sorted_insertionSort pinLe pins

theorem sortModulePins_perm (pins : List ModulePin) :
    List.Perm (SortModulePins pins) pins :=
  List.perm_insertionSort pinLe pins

theorem sortModulePins_pairwise_ne {pins : List ModulePin}
    (h : pins.Pairwise (fun q r => q.identity ≠ r.identity)) :
    (SortModulePins pins).Pairwise (fun q r => q.identity ≠ r.identity) :=
  ((sortModulePins_perm pins).pairwise_iff (fun hab => Ne.symm hab)).mpr h

theorem validateModulePins_ok_pairwise {pins : List ModulePin}
    (h : ValidateModulePinsUniqueByIdentity pins = .ok ()) :
    pins.Pairwise (fun q r => q.identity ≠ r.identity) := by
  unfold ValidateModulePinsUniqueByIdentity at h
  rcases hf : findDuplicateIdentity pins with _ | id
  · exact (findDuplicateIdentity_eq_none_iff pins).mp hf
  · rw [hf] at h
    exact absurd h (by simp)

theorem core_eq_ok {b : ReadBucket} {pins : List ModulePin} {docs : String}
    (hpins : ValidateModulePinsUniqueByIdentity pins = .ok ())
    (hdocs : readDocumentation b = .ok docs) (options : List ModuleOption) :
    newModuleForBucketWithDependencyModulePins b pins options =
      .ok (options.foldl applyModuleOption
        { sourceReadBucket := MapReadBucket b (MatchPathExt ".proto")
          dependencyModulePins := SortModulePins pins
          moduleIdentity := none
          commit := ""
          documentation := docs }) := by
  unfold newModuleForBucketWithDependencyModulePins
  rw [hpins, hdocs]

theorem core_eq_of_validate_error {pins : List ModulePin} {e : ModuleError}
    (hpins : ValidateModulePinsUniqueByIdentity pins = .error e)
    (b : ReadBucket) (options : List ModuleOption) :
    newModuleForBucketWithDependencyModulePins b pins options = .error e := by
  unfold newModuleForBucketWithDependencyModulePins
  rw [hpins]

theorem newModuleForProto_ok_elim {protoModule : ProtoModule} {options : List ModuleOption}
    {m : Module} (h : newModuleForProto protoModule options = .ok m) :
    ∃ pins, NewModulePinsForProtos protoModule.dependencies = .ok pins ∧
      newModuleForBucketWithDependencyModulePins (protoBucket protoModule) pins options =
        .ok m := by
  unfold newModuleForProto at h
  rcases hv : ValidateProtoModule protoModule with e | u
  · rw [hv] at h
    exact absurd h (by simp)
  · cases u
    rw [hv] at h
    rcases hp : NewModulePinsForProtos protoModule.dependencies with e | pins
    · rw [hp] at h
      exact absurd h (by simp)
    · rw [hp] at h
      exact ⟨pins, rfl, h⟩

theorem newModuleForBucket_ok_elim {lockResult : Except ModuleError (List ModulePin)}
    {b : ReadBucket} {options : List ModuleOption} {m : Module}
    (h : newModuleForBucket lockResult b options = .ok m) :
    ∃ pins, lockResult = .ok pins ∧
      newModuleForBucketWithDependencyModulePins b pins options = .ok m := by
  rcases lockResult with e | pins
  · exact absurd h (by simp [newModuleForBucket])
  · exact ⟨pins, rfl, h⟩

theorem newFileInfo_ok_path {path externalPath : String} {imp : Bool}
    {mi : Option ModuleIdentity} {c : String} {fi : FileInfo}
    (h : NewFileInfo path externalPath imp mi c = .ok fi) : fi.path = path := by
  unfold NewFileInfo at h
  rcases hv : ValidateModuleFilePath path with e | u
  · rw [hv] at h
    exact absurd h (by simp)
  · cases u
    rw [hv] at h
    simp only [Except.ok.injEq] at h
    rw [← h]

theorem walkFileInfos_ok_mem {mi : Option ModuleIdentity} {c : String} :
    ∀ {entries : List BucketEntry} {fileInfos : List FileInfo},
      walkFileInfos mi c entries = .ok fileInfos →
      ∀ fi ∈ fileInfos, ∃ e ∈ entries, fi.path = e.path := by
  intro entries
  induction entries with
  | nil =>
    intro fileInfos h fi hfi
    simp only [walkFileInfos, Except.ok.injEq] at h
    subst h
    simp at hfi
  | cons e rest ih =>
    intro fileInfos h fi hfi
    simp only [walkFileInfos] at h
    rcases hv : ValidateModuleFilePath e.path with er | u
    · rw [hv] at h
      exact absurd h (by simp)
    · cases u
      rw [hv] at h
      rcases hn : NewFileInfo e.path e.externalPath false mi c with er | fi0
      · rw [hn] at h
        exact absurd h (by simp)
      · rw [hn] at h
        rcases hw : walkFileInfos mi c rest with er | fis
        · rw [hw] at h
          exact absurd h (by simp)
        · rw [hw] at h
          simp only [Except.ok.injEq] at h
          subst h
          rcases List.mem_cons.mp hfi with rfl | hfi'
          · exact ⟨e, List.mem_cons_self e rest, newFileInfo_ok_path hn⟩
          · obtain ⟨e', he', hp⟩ := ih hw fi hfi'
            exact ⟨e', List.mem_cons_of_mem e he', hp⟩

theorem newFileInfo_ok_of_valid {path externalPath : String} {imp : Bool}
    {mi : Option ModuleIdentity} {c : String}
    (h : ValidateModuleFilePath path = .ok ()) :
    NewFileInfo path externalPath imp mi c =
      .ok { path
            externalPath := if externalPath = "" then path else externalPath
            isImport := imp
            moduleIdentity := mi
            commit := c } := by
  unfold NewFileInfo
  rw [h]

theorem walkFileInfos_error_of_first {mi : Option ModuleIdentity} {c : String}
    {err : ModuleError} :
    ∀ {pre : List BucketEntry} {e : BucketEntry} {post : List BucketEntry},
      (∀ e' ∈ pre, ValidateModuleFilePath e'.path = .ok ()) →
      ValidateModuleFilePath e.path = .error err →
      walkFileInfos mi c (pre ++ e :: post) = .error err := by
  intro pre
  induction pre with
  | nil =>
    intro e post hpre herr
    simp only [List.nil_append, walkFileInfos]
    rw [herr]
  | cons p rest ih =>
    intro e post hpre herr
    have hp : ValidateModuleFilePath p.path = .ok () :=
      hpre p (List.mem_cons_self p rest)
    simp only [List.cons_append, walkFileInfos]
    rw [hp, newFileInfo_ok_of_valid hp]
    simp only [List.append_eq]
    rw [ih (fun e' he' => hpre e' (List.mem_cons_of_mem p he')) herr]

theorem sourceFileInfos_cases (m : Module) :
    (∃ fis, walkFileInfos m.moduleIdentity m.commit m.sourceReadBucket.entries = .ok fis ∧
        m.SourceFileInfos = .ok (sortFileInfos fis)) ∨
    (∃ er, walkFileInfos m.moduleIdentity m.commit m.sourceReadBucket.entries = .error er ∧
        m.SourceFileInfos = .error (.enumerationFailure er)) := by
  rcases hw : walkFileInfos m.moduleIdentity m.commit m.sourceReadBucket.entries with er | fis
  · right
    refine ⟨er, rfl, ?_⟩
    unfold Module.SourceFileInfos
    rw [hw]
  · left
    refine ⟨fis, rfl, ?_⟩
    unfold Module.SourceFileInfos
    rw [hw]

theorem validateProtoModuleFiles_ok {files : List ProtoModuleFile}
    (h : validateProtoModuleFiles files = .ok ()) :
    ∀ f ∈ files, ValidateModuleFilePath f.path = .ok () := by
  induction files with
  | nil =>
    intro f hf
    simp at hf
  | cons g rest ih =>
    intro f hf
    simp only [validateProtoModuleFiles] at h
    rcases hv : ValidateModuleFilePath g.path with e | u
    · rw [hv] at h
      exact absurd h (by simp)
    · cases u
      rw [hv] at h
      by_cases hany : rest.any (fun q => q.path == g.path)
      · rw [if_pos hany] at h
        exact absurd h (by simp)
      · rw [if_neg hany] at h
        rcases List.mem_cons.mp hf with rfl | hf'
        · exact hv
        · exact ih h f hf'

theorem validateModuleFilePath_ok_ext {path : String}
    (h : ValidateModuleFilePath path = .ok ()) : pathExt path = ".proto" := by
  unfold ValidateModuleFilePath at h
  split_ifs at h with h1 h2 h3 h4
  exact h4

theorem protoBucket_get_doc {protoModule : ProtoModule}
    (hfiles : ∀ f ∈ protoModule.files, f.path ≠ DocumentationFilePath)
    (hdoc : protoModule.documentation ≠ "") :
    (protoBucket protoModule).get DocumentationFilePath =
      .ok ⟨DocumentationFilePath, DocumentationFilePath, protoModule.documentation⟩ := by
  unfold protoBucket ReadBucket.get
  rw [if_neg hdoc]
  rw [List.find?_append]
  have hnone : (protoModule.files.map fun f =>
      (⟨f.path, f.path, FileContent.bytes f.content⟩ : BucketEntry)).find?
        (fun e => e.path == DocumentationFilePath) = none := by
    rw [List.find?_eq_none]
    intro e he
    obtain ⟨f, hf, rfl⟩ := List.mem_map.mp he
    simpa using hfiles f hf
  rw [hnone]
  simp [List.find?]

theorem protoBucket_readDocumentation {protoModule : ProtoModule}
    (hfiles : ∀ f ∈ protoModule.files, f.path ≠ DocumentationFilePath)
    (hdoc : protoModule.documentation ≠ "") :
    readDocumentation (protoBucket protoModule) = .ok protoModule.documentation := by
  unfold readDocumentation
  rw [protoBucket_get_doc hfiles hdoc]

/-! ### Claim theorems -/

/-- C1: for every dependency pin list accepted by any of the three
module constructors, the constructed module's `DependencyModulePins`
list is sorted by identity (remote, then owner, then repository) and
contains no two pins with the same `ModuleIdentity`; if the input list
contains two pins with equal identity (even with different commits),
construction fails with a `DuplicateDependency` error and no module is
returned. -/
theorem dependencyModulePins_sorted_unique
    (b : ReadBucket) (pins : List ModulePin) (options : List ModuleOption)
    (protoModule : ProtoModule) (lockResult : Except ModuleError (List ModulePin)) :
    (∀ m, newModuleForBucketWithDependencyModulePins b pins options = .ok m →
        List.Sorted pinLe m.DependencyModulePins ∧
        m.DependencyModulePins.Pairwise (fun q r => q.identity ≠ r.identity)) ∧
    (∀ m, newModuleForProto protoModule options = .ok m →
        List.Sorted pinLe m.DependencyModulePins ∧
        m.DependencyModulePins.Pairwise (fun q r => q.identity ≠ r.identity)) ∧
    (∀ m, newModuleForBucket lockResult b options = .ok m →
        List.Sorted pinLe m.DependencyModulePins ∧
        m.DependencyModulePins.Pairwise (fun q r => q.identity ≠ r.identity)) ∧
    (¬ pins.Pairwise (fun q r => q.identity ≠ r.identity) →
      ∃ identity, newModuleForBucketWithDependencyModulePins b pins options =
        .error (ModuleError.duplicateDependency identity)) := by
  have key : ∀ (b' : ReadBucket) (pins' : List ModulePin) (m : Module),
      newModuleForBucketWithDependencyModulePins b' pins' options = .ok m →
      List.Sorted pinLe m.DependencyModulePins ∧
      m.DependencyModulePins.Pairwise (fun q r => q.identity ≠ r.identity) := by
    intro b' pins' m h
    obtain ⟨hval, docs, hdocs, hm⟩ := core_ok_elim h
    have hpinsEq : m.DependencyModulePins = SortModulePins pins' := by
      unfold Module.DependencyModulePins
      rw [hm, foldl_applyModuleOption_pins]
    rw [hpinsEq]
    exact ⟨sortModulePins_sorted pins',
      sortModulePins_pairwise_ne (validateModulePins_ok_pairwise hval)⟩
  refine ⟨fun m h => key b pins m h, fun m h => ?_, fun m h => ?_, fun hdup => ?_⟩
  · obtain ⟨pins', hpins', hcore⟩ := newModuleForProto_ok_elim h
    exact key _ pins' m hcore
  · obtain ⟨pins', hpins', hcore⟩ := newModuleForBucket_ok_elim h
    exact key b pins' m hcore
  · obtain ⟨identity, hid⟩ := validateModulePins_dup hdup
    exact ⟨identity, core_eq_of_validate_error hid b options⟩

theorem dependencyModulePins_sorted_unique_witness :
    (List.Sorted pinLe
        (Module.DependencyModulePins
          ⟨⟨[]⟩, [⟨⟨"a", "o", "p"⟩, "c2"⟩, ⟨⟨"z", "o", "p"⟩, "c1"⟩], none, "", ""⟩) ∧
      (Module.DependencyModulePins
          ⟨⟨[]⟩, [⟨⟨"a", "o", "p"⟩, "c2"⟩, ⟨⟨"z", "o", "p"⟩, "c1"⟩],
            none, "", ""⟩).Pairwise
        (fun q r => q.identity ≠ r.identity)) ∧
    (∃ identity,
      newModuleForBucketWithDependencyModulePins ⟨[]⟩
          [⟨⟨"r", "o", "p"⟩, "c1"⟩, ⟨⟨"r", "o", "p"⟩, "c2"⟩] [] =
        .error (ModuleError.duplicateDependency identity)) :=
  ⟨(dependencyModulePins_sorted_unique ⟨[]⟩
        [⟨⟨"z", "o", "p"⟩, "c1"⟩, ⟨⟨"a", "o", "p"⟩, "c2"⟩] [] ⟨[], [], ""⟩
        (.ok [])).1
      ⟨⟨[]⟩, [⟨⟨"a", "o", "p"⟩, "c2"⟩, ⟨⟨"z", "o", "p"⟩, "c1"⟩], none, "", ""⟩ rfl,
    (dependencyModulePins_sorted_unique ⟨[]⟩
        [⟨⟨"r", "o", "p"⟩, "c1"⟩, ⟨⟨"r", "o", "p"⟩, "c2"⟩] [] ⟨[], [], ""⟩
        (.ok [])).2.2.2 (by decide)⟩

/-- C2: for every constructed module, every file path whose extension is
not the recognized source extension `.proto` never appears in
`SourceFileInfos` (even if physically present in the underlying bucket),
the returned list is sorted by path; a path-validation failure during
the walk makes `SourceFileInfos` fail with an `EnumerationFailure`
wrapping the first such error instead of returning a partial list (the
middle clause: if the first invalid entry of the walked bucket fails
validation with some error, the whole enumeration returns exactly that
error wrapped, never a list); and every error it returns has that
wrapped shape. -/
theorem sourceFileInfos_spec (b : ReadBucket) (pins : List ModulePin)
    (options : List ModuleOption) (m : Module)
    (hm : newModuleForBucketWithDependencyModulePins b pins options = .ok m) :
    (∀ fileInfos, m.SourceFileInfos = .ok fileInfos →
        List.Sorted fileInfoLe fileInfos ∧
        (∀ fi ∈ fileInfos, pathExt fi.path = ".proto") ∧
        (∀ fi ∈ fileInfos, ∀ pth, pathExt pth ≠ ".proto" → fi.path ≠ pth)) ∧
    (∀ pre e post err, m.sourceReadBucket.entries = pre ++ e :: post →
        (∀ e' ∈ pre, ValidateModuleFilePath e'.path = .ok ()) →
        ValidateModuleFilePath e.path = .error err →
        m.SourceFileInfos = .error (ModuleError.enumerationFailure err)) ∧
    (∀ err, m.SourceFileInfos = .error err →
        ∃ cause, err = ModuleError.enumerationFailure cause) := by
  obtain ⟨hval, docs, hdocs, hmod⟩ := core_ok_elim hm
  have hbucket : m.sourceReadBucket = MapReadBucket b (MatchPathExt ".proto") := by
    rw [hmod, foldl_applyModuleOption_bucket]
  refine ⟨?_, ?_, ?_⟩
  · intro fileInfos hokk
    rcases sourceFileInfos_cases m with ⟨fis, hw, hok⟩ | ⟨er, hw, herr⟩
    · rw [hok] at hokk
      simp only [Except.ok.injEq] at hokk
      subst hokk
      have hext : ∀ fi ∈ sortFileInfos fis, pathExt fi.path = ".proto" := by
        intro fi hfi
        have hfi' : fi ∈ fis := by
          unfold sortFileInfos at hfi
          exact (List.mem_insertionSort fileInfoLe).mp hfi
        obtain ⟨e, he, hp⟩ := walkFileInfos_ok_mem hw fi hfi'
        rw [hbucket] at he
        simp only [MapReadBucket] at he
        have hmatch := (List.mem_filter.mp he).2
        rw [hp]
        exact eq_of_beq hmatch
      refine ⟨?_, hext, ?_⟩
      · unfold sortFileInfos
        exact List.sorted_insertionSort fileInfoLe fis
      · intro fi hfi pth hpth hcontra
        exact hpth (hcontra ▸ hext fi hfi)
    · rw [herr] at hokk
      exact absurd hokk (by simp)
  · intro pre e post err hsplit hpre herr
    have hw : walkFileInfos m.moduleIdentity m.commit m.sourceReadBucket.entries =
        .error err := by
      rw [hsplit]
      exact walkFileInfos_error_of_first hpre herr
    unfold Module.SourceFileInfos
    rw [hw]
  · intro err herr2
    rcases sourceFileInfos_cases m with ⟨fis, hw, hok⟩ | ⟨er, hw, herr⟩
    · rw [hok] at herr2
      exact absurd herr2 (by simp)
    · rw [herr] at herr2
      simp only [Except.error.injEq] at herr2
      exact ⟨er, herr2.symm⟩

theorem sourceFileInfos_spec_witness :
    List.Sorted fileInfoLe
      [⟨"a.proto", "a.proto", false, none, ""⟩,
        ⟨"b.proto", "b.proto", false, none, ""⟩] ∧
    Module.SourceFileInfos
        ⟨⟨[⟨"../x.proto", "../x.proto", FileContent.bytes "c"⟩]⟩, [], none, "", ""⟩ =
      .error (ModuleError.enumerationFailure (ModuleError.invalidPath "../x.proto")) :=
  ⟨((sourceFileInfos_spec
      ⟨[⟨"b.proto", "b.proto", FileContent.bytes "x"⟩,
        ⟨"nope.md", "nope.md", FileContent.bytes "y"⟩,
        ⟨"a.proto", "a.proto", FileContent.bytes "z"⟩]⟩ [] []
      ⟨⟨[⟨"b.proto", "b.proto", FileContent.bytes "x"⟩,
          ⟨"a.proto", "a.proto", FileContent.bytes "z"⟩]⟩, [], none, "", ""⟩
      rfl).1
    [⟨"a.proto", "a.proto", false, none, ""⟩,
      ⟨"b.proto", "b.proto", false, none, ""⟩]
    rfl).1,
   (sourceFileInfos_spec
      ⟨[⟨"../x.proto", "../x.proto", FileContent.bytes "c"⟩]⟩ [] []
      ⟨⟨[⟨"../x.proto", "../x.proto", FileContent.bytes "c"⟩]⟩, [], none, "", ""⟩
      rfl).2.1
    [] ⟨"../x.proto", "../x.proto", FileContent.bytes "c"⟩ []
    (ModuleError.invalidPath "../x.proto") rfl (by simp) rfl⟩

/-- C7: during module construction, if the well-known documentation file
is absent from the source bucket (a not-found error), construction
succeeds and the module's `Documentation` is the empty string; any
documentation-file read error other than not-found makes construction
fail and no module is returned. -/
theorem documentation_absent_or_error (b : ReadBucket) (pins : List ModulePin)
    (options : List ModuleOption)
    (hpins : ValidateModulePinsUniqueByIdentity pins = .ok ()) :
    (b.get DocumentationFilePath = .error (.notExist DocumentationFilePath) →
      ∃ m, newModuleForBucketWithDependencyModulePins b pins options = .ok m ∧
        m.Documentation = "") ∧
    (∀ msg, b.get DocumentationFilePath = .error (.ioError msg) →
      newModuleForBucketWithDependencyModulePins b pins options =
        .error (.storage (.ioError msg))) := by
  constructor
  · intro hget
    have hdocs : readDocumentation b = .ok "" := by
      unfold readDocumentation
      rw [hget]
      rfl
    refine ⟨_, core_eq_ok hpins hdocs options, ?_⟩
    unfold Module.Documentation
    rw [foldl_applyModuleOption_documentation]
  · intro msg hget
    have hdocs : readDocumentation b = .error (.storage (.ioError msg)) := by
      unfold readDocumentation
      rw [hget]
      rfl
    unfold newModuleForBucketWithDependencyModulePins
    rw [hpins, hdocs]

theorem documentation_absent_or_error_witness :
    newModuleForBucketWithDependencyModulePins
        ⟨[⟨"buf.md", "buf.md", FileContent.readError "boom"⟩]⟩ [] [] =
      .error (.storage (.ioError "boom")) :=
  (documentation_absent_or_error
      ⟨[⟨"buf.md", "buf.md", FileContent.readError "boom"⟩]⟩ [] [] rfl).2 "boom" rfl

/-- C9: for every valid decoded proto module whose documentation field
is a non-empty string, the module constructed by `newModuleForProto` has
`Documentation` equal to that string: the string is written under the
reserved documentation path into the fresh bucket and read back verbatim
by the core builder. -/
theorem newModuleForProto_documentation_roundtrip (protoModule : ProtoModule)
    (options : List ModuleOption) (m : Module)
    (hdoc : protoModule.documentation ≠ "")
    (h : newModuleForProto protoModule options = .ok m) :
    m.Documentation = protoModule.documentation := by
  unfold newModuleForProto at h
  rcases hv : ValidateProtoModule protoModule with e | u
  · rw [hv] at h
    exact absurd h (by simp)
  · cases u
    rw [hv] at h
    rcases hp : NewModulePinsForProtos protoModule.dependencies with e | pins
    · rw [hp] at h
      exact absurd h (by simp)
    · rw [hp] at h
      have hfiles : ∀ f ∈ protoModule.files, f.path ≠ DocumentationFilePath := by
        intro f hf hcontra
        have hok := validateProtoModuleFiles_ok hv f hf
        have hext := validateModuleFilePath_ok_ext hok
        rw [hcontra] at hext
        exact absurd hext (by decide)
      have hdocs := protoBucket_readDocumentation hfiles hdoc
      have h' : newModuleForBucketWithDependencyModulePins (protoBucket protoModule)
          pins options = .ok m := h
      obtain ⟨hval, docs, hdocs', hmod⟩ := core_ok_elim h'
      rw [hdocs] at hdocs'
      simp only [Except.ok.injEq] at hdocs'
      subst hdocs'
      rw [hmod]
      unfold Module.Documentation
      rw [foldl_applyModuleOption_documentation]

theorem newModuleForProto_documentation_roundtrip_witness :
    Module.Documentation
        ⟨⟨[⟨"a.proto", "a.proto", FileContent.bytes "x"⟩]⟩, [], none, "", "d"⟩ = "d" :=
  newModuleForProto_documentation_roundtrip ⟨[⟨"a.proto", "x"⟩], [], "d"⟩ []
    ⟨⟨[⟨"a.proto", "a.proto", FileContent.bytes "x"⟩]⟩, [], none, "", "d"⟩
    (by decide) rfl

/-- C3: for every context, `GetConfigForData` applied to zero-length
data, and `GetConfig` applied to a bucket in which neither the canonical
nor the legacy config file exists, return the fixed default `Config`
(default version, no module identity, default sub-configs) and never
return an error. -/
theorem getConfig_empty_default (decode : String → ConfigData) (b : ReadBucket)
    (h1 : b.get ExternalConfigFilePath = .error (.notExist ExternalConfigFilePath))
    (h2 : b.get ExternalConfigV1Beta1FilePath =
      .error (.notExist ExternalConfigV1Beta1FilePath)) :
    GetConfigForData ConfigData.empty = .ok defaultConfig ∧
    GetConfig decode b = .ok defaultConfig := by
  refine ⟨rfl, ?_⟩
  unfold GetConfig
  rw [h1, h2]
  rfl

theorem getConfig_empty_default_witness :
    GetConfigForData ConfigData.empty = .ok defaultConfig ∧
    GetConfig (fun _ => ConfigData.empty) ⟨[]⟩ = .ok defaultConfig :=
  getConfig_empty_default (fun _ => ConfigData.empty) ⟨[]⟩ rfl rfl

/-- C4: for every input whose declared version field is not one of
exactly the two whitelisted strings `"v1beta1"` and `"v1"`,
`GetConfigForData` fails with an `UnsupportedVersion` error naming the
offending version string; recognized versions are matched purely by
exact string equality. -/
theorem getConfigForData_unsupportedVersion (version : String)
    (dv1beta1 : DecodeResult ExternalConfigV1Beta1) (dv1 : DecodeResult ExternalConfigV1)
    (h1 : version ≠ V1Beta1Version) (h2 : version ≠ V1Version) :
    GetConfigForData (.decoded version dv1beta1 dv1) =
      .error (.unsupportedVersion version) := by
  simp only [GetConfigForData]
  rw [if_neg h1, if_neg h2]

theorem getConfigForData_unsupportedVersion_witness :
    GetConfigForData (.decoded "v2" (.failed "") (.failed "")) =
      .error (.unsupportedVersion "v2") :=
  getConfigForData_unsupportedVersion "v2" (.failed "") (.failed "")
    (by decide) (by decide)

/-- C5: `ConfigExists` returns true if the canonical config filename
(`buf.mod`) exists in the bucket; otherwise it returns true exactly when
the legacy filename (`buf.yaml`) exists; otherwise false; any bucket
error other than not-found is propagated to the caller. -/
theorem configExists_spec (b : ReadBucket) :
    (∀ obj, b.get ExternalConfigFilePath = .ok obj → ConfigExists b = .ok true) ∧
    (b.get ExternalConfigFilePath = .error (.notExist ExternalConfigFilePath) →
      (∀ obj, b.get ExternalConfigV1Beta1FilePath = .ok obj →
        ConfigExists b = .ok true) ∧
      (b.get ExternalConfigV1Beta1FilePath =
          .error (.notExist ExternalConfigV1Beta1FilePath) →
        ConfigExists b = .ok false) ∧
      (∀ msg, b.get ExternalConfigV1Beta1FilePath = .error (.ioError msg) →
        ConfigExists b = .error (.ioError msg))) ∧
    (∀ msg, b.get ExternalConfigFilePath = .error (.ioError msg) →
      ConfigExists b = .error (.ioError msg)) := by
  refine ⟨?_, ?_, ?_⟩
  · intro obj hobj
    unfold ConfigExists storageExists
    rw [hobj]
  · intro h1
    refine ⟨?_, ?_, ?_⟩
    · intro obj hobj
      unfold ConfigExists storageExists
      rw [h1, hobj]
    · intro h2
      unfold ConfigExists storageExists
      rw [h1, h2]
    · intro msg h2
      unfold ConfigExists storageExists
      rw [h1, h2]
  · intro msg h1
    unfold ConfigExists storageExists
    rw [h1]

theorem configExists_spec_witness :
    ConfigExists ⟨[⟨"buf.yaml", "buf.yaml", FileContent.bytes "version: v1"⟩]⟩ =
      .ok true :=
  ((configExists_spec ⟨[⟨"buf.yaml", "buf.yaml", FileContent.bytes "version: v1"⟩]⟩).2.1
      rfl).1 ⟨"buf.yaml", "buf.yaml", "version: v1"⟩ rfl

/-- C6: `WriteConfig` with the dependency-module-references option set
but no module-identity option set fails with an `OptionConflict` error
before performing any write: the destination bucket is unchanged. -/
theorem writeConfig_optionConflict (writeBucket : WriteBucket)
    (options : List WriteConfigOption)
    (h1 : (applyWriteConfigOptions options).dependencyModuleReferences ≠ [])
    (h2 : (applyWriteConfigOptions options).moduleIdentity = none) :
    WriteConfig writeBucket options = (writeBucket, some ConfigError.optionConflict) := by
  unfold WriteConfig writeConfig
  rw [if_pos ⟨h1, h2⟩]

theorem writeConfig_optionConflict_witness :
    WriteConfig ⟨[]⟩
        [WriteConfigWithDependencyModuleReferences
          [⟨⟨"example.com", "acme", "base"⟩, ""⟩]] =
      (⟨[]⟩, some ConfigError.optionConflict) :=
  writeConfig_optionConflict ⟨[]⟩
    [WriteConfigWithDependencyModuleReferences [⟨⟨"example.com", "acme", "base"⟩, ""⟩]]
    (by decide) rfl

/-- C8: for every constructed module, `TargetFileInfos` returns exactly
the same result as `SourceFileInfos`: target-file enumeration and
source-file enumeration are the same function in this core. -/
theorem targetFileInfos_eq_sourceFileInfos (m : Module) :
    m.TargetFileInfos = m.SourceFileInfos :=
  rfl

/-- C10: the documentation file is never reachable through the module's
file surface: for every module, `GetModuleFile` applied to the reserved
documentation file path fails with `InvalidPath` (path validation
requires the source extension), even when documentation content is
physically present in the underlying bucket. -/
theorem getModuleFile_documentationFilePath (m : Module) :
    m.GetModuleFile DocumentationFilePath =
      .error (.invalidPath DocumentationFilePath) := by
  have hv : ValidateModuleFilePath DocumentationFilePath =
      .error (.invalidPath DocumentationFilePath) := rfl
  unfold Module.GetModuleFile
  rw [hv]

end Buf
